import Mathlib

/-!
Shallow embedding of the semantic-retrieval subsystem of Paper-Reader-Tools
(`paper_reader_tools/vector_search.py`, class `VectorStore`): the embedding
rows and their serialized vector cells, the content-sampling policy of
`add_embedding`, cosine similarity, and the scoring / sorting / truncation
pipeline of `search`.

Machine doubles are idealized as real numbers together with an explicit NaN
value (`PyFloat`).  In `_cosine_similarity` the only reachable
zero-denominator division has a zero numerator (lemma
`dotR_eq_zero_of_norm_mul_eq_zero`), and IEEE 0.0/0.0 is NaN; numpy emits a
warning for it but does not raise.
-/

open scoped Classical

/-- Model of a numpy float64 scalar: a real value or NaN. -/
inductive PyFloat where
  | val (x : ℝ)
  | nan

/-- Python float comparison `a > b`: every comparison involving NaN is false. -/
def pyGt : PyFloat → PyFloat → Prop
  | PyFloat.val x, PyFloat.val y => y < x
  | _, _ => False

/-- Python builtin `max(a, b)`: returns `b` exactly when `b > a`, else `a`. -/
noncomputable def pyMax (a b : PyFloat) : PyFloat :=
  if pyGt b a then b else a

/-- Float multiplication; NaN is absorbing. -/
def pyMul : PyFloat → PyFloat → PyFloat
  | PyFloat.val x, PyFloat.val y => PyFloat.val (x * y)
  | _, _ => PyFloat.nan

/-- Model of `np.dot` on 1-d arrays: sum of pairwise products. -/
def dotR (a b : List ℝ) : ℝ := (List.zipWith (fun x y => x * y) a b).sum

/-- Model of `np.linalg.norm`: square root of the sum of squares. -/
noncomputable def normR (a : List ℝ) : ℝ := Real.sqrt ((a.map (fun x => x * x)).sum)

/-- Source `VectorStore._cosine_similarity`:
`np.dot(a, b) / (np.linalg.norm(a) * np.linalg.norm(b))`, with no guard on
the denominator.  Whenever the denominator is zero, the numerator is zero as
well (`dotR_eq_zero_of_norm_mul_eq_zero`), and IEEE 0.0/0.0 evaluates to NaN. -/
noncomputable def cosineSimilarity (a b : List ℝ) : PyFloat :=
  if normR a * normR b = 0 then PyFloat.nan
  else PyFloat.val (dotR a b / (normR a * normR b))

/-- Per-record scoring inside `VectorStore.search` (lines 140-150): title
cosine weighted by 1.5 when the title vector is non-empty, else literal 0;
content cosine unweighted when non-empty, else literal 0; combined with
Python `max`. -/
noncomputable def rowScore (query_vector title_vector content_vector : List ℝ) : PyFloat :=
  let title_score := if 0 < title_vector.length then
      pyMul (cosineSimilarity query_vector title_vector) (PyFloat.val 1.5)
    else PyFloat.val 0
  let content_score := if 0 < content_vector.length then
      cosineSimilarity query_vector content_vector
    else PyFloat.val 0
  pyMax title_score content_score

/-- Python sequence slicing `l[start:stop]` with the usual clamping and
negative-index semantics. -/
def pySlice {α : Type} (l : List α) (start stop : Int) : List α :=
  let n : Int := l.length
  let s := if start < 0 then max (n + start) 0 else min start n
  let e := if stop < 0 then max (n + stop) 0 else min stop n
  (l.take e.toNat).drop s.toNat

/-- Content sampling in `VectorStore.add_embedding` (lines 77-82): when the
content exceeds 5000 characters, concatenate
`content[:1500] + " " + content[len//2-750:len//2+750] + " " + content[-1500:]`
(an omitted slice end is the length); otherwise the content unchanged. -/
def contentSample (content : List Char) : List Char :=
  if 5000 < content.length then
    pySlice content 0 1500 ++ [' '] ++
      pySlice content ((content.length : Int) / 2 - 750) ((content.length : Int) / 2 + 750) ++
      [' '] ++ pySlice content (-1500) (content.length : Int)
  else content

/-- Content of a serialized vector cell (a TEXT column).  `jsonList v` is
`json.dumps` of a numeric list (always a non-empty, hence truthy, string);
`malformed` is corrupt text that `json.loads` rejects; `nullv` is a falsy
cell (NULL or empty string). -/
inductive StoredText where
  | jsonList (v : List ℝ)
  | malformed
  | nullv

/-- One row of the `embeddings` table. -/
structure EmbRow where
  paper_id : Int
  title_vector : StoredText
  content_vector : StoredText
  created_at : Nat

/-- The VectorStore state: the module-level `VECTORS_ENABLED` flag, the
optional sentence-transformer model (an encode function), and the table rows
in scan order. -/
structure VectorStore where
  vectorsEnabled : Bool
  model : Option (List Char → List ℝ)
  rows : List EmbRow

/-- SQLite `INSERT OR REPLACE` on a table whose primary key is `paper_id`:
the conflicting row is deleted and a fresh row is inserted; the unspecified
`created_at` column takes its default `CURRENT_TIMESTAMP`, i.e. `now`. -/
def upsertRow (rows : List EmbRow) (pid : Int) (tv cv : StoredText) (now : Nat) :
    List EmbRow :=
  rows.filter (fun r => decide (r.paper_id ≠ pid)) ++ [⟨pid, tv, cv, now⟩]

/-- Source `VectorStore.add_embedding(paper_id, title, content)`; `now` is
the database timestamp at the time of the call. -/
def addEmbedding (s : VectorStore) (now : Nat) (paper_id : Int)
    (title content : List Char) : Bool × VectorStore :=
  match s.vectorsEnabled, s.model with
  | false, _ => (false, s)
  | true, none => (false, s)
  | true, some enc =>
      let title_vector : List ℝ := if title ≠ [] then enc title else []
      let content_sample := contentSample content
      let content_vector : List ℝ := if content_sample ≠ [] then enc content_sample else []
      (true, { s with
        rows := upsertRow s.rows paper_id (StoredText.jsonList title_vector)
          (StoredText.jsonList content_vector) now })

/-- Deserialization of one cell during the search scan (lines 137-138):
a falsy cell becomes the empty array, a stored JSON list is parsed back, and
malformed text raises (modelled as `Except.error`). -/
def loadVecE : StoredText → Except Unit (List ℝ)
  | StoredText.nullv => Except.ok []
  | StoredText.jsonList v => Except.ok v
  | StoredText.malformed => Except.error ()

/-- One iteration of the scoring loop in `search`: deserialize both vectors
(title first), then score the record. -/
noncomputable def scoreRow (query_vector : List ℝ) (r : EmbRow) :
    Except Unit (Int × PyFloat) :=
  match loadVecE r.title_vector with
  | Except.error e => Except.error e
  | Except.ok tv =>
    match loadVecE r.content_vector with
    | Except.error e => Except.error e
    | Except.ok cv => Except.ok (r.paper_id, rowScore query_vector tv cv)

/-- The whole scoring loop; an exception at any row aborts the loop. -/
noncomputable def scoreRows (query_vector : List ℝ) :
    List EmbRow → Except Unit (List (Int × PyFloat))
  | [] => Except.ok []
  | r :: rs =>
    match scoreRow query_vector r with
    | Except.error e => Except.error e
    | Except.ok p =>
      match scoreRows query_vector rs with
      | Except.error e => Except.error e
      | Except.ok ps => Except.ok (p :: ps)

/-- Comparison used by the stable descending sort
`results.sort(key=lambda x: x[1], reverse=True)`: an element `p` may stay
before `q` iff the score of `q` is not strictly greater than that of `p`. -/
def descRel (p q : Int × PyFloat) : Prop := ¬ pyGt q.2 p.2

/-- Python stable descending sort on the score component. -/
noncomputable def sortDesc (results : List (Int × PyFloat)) : List (Int × PyFloat) :=
  List.insertionSort descRel results

/-- Python slicing `l[:limit]`, including the negative-limit case. -/
def pyTake {α : Type} (l : List α) (limit : Int) : List α :=
  if 0 ≤ limit then l.take limit.toNat else l.take (l.length - (-limit).toNat)

/-- Source `VectorStore.search(query, limit)`: returns the paper ids of the
sorted, sliced score list; any exception inside the `try` yields `[]`. -/
noncomputable def search (s : VectorStore) (query : List Char) (limit : Int) : List Int :=
  match s.vectorsEnabled, s.model with
  | false, _ => []
  | true, none => []
  | true, some enc =>
    let query_vector := enc query
    if s.rows.isEmpty then []
    else
      match scoreRows query_vector s.rows with
      | Except.error _ => []
      | Except.ok results => (pyTake (sortDesc results) limit).map Prod.fst

/-- Modelled from the spec's words, for comparison with the code (C2):
cosine similarity `dot(a,b) / (||a|| * ||b||)` as a real number. -/
noncomputable def specCosine (a b : List ℝ) : ℝ := dotR a b / (normR a * normR b)

/-- Modelled from the spec's words, for comparison with the code (C2): a
record's relevance score is the maximum of 1.5 times the title cosine and
the content cosine, an empty vector contributing 0 instead of its term. -/
noncomputable def specRecordScore (q t c : List ℝ) : ℝ :=
  max (if t ≠ [] then 1.5 * specCosine q t else 0)
    (if c ≠ [] then specCosine q c else 0)

/-- A concrete encode function standing in for the sentence-transformer. -/
def encConst : List Char → List ℝ := fun _ => [1]

/-- A store whose provider is available, with an empty table. -/
def s0 : VectorStore := ⟨true, some encConst, []⟩

/-- A store whose provider is unavailable (`model is None`). -/
def sOff : VectorStore := ⟨true, none, []⟩

/-- A store holding one malformed record (id 1) and one well-formed record
(id 2). -/
def sMal : VectorStore :=
  ⟨true, some encConst,
    [⟨1, StoredText.malformed, StoredText.malformed, 0⟩,
     ⟨2, StoredText.jsonList [], StoredText.jsonList [], 0⟩]⟩

/-- A store holding a single well-formed record. -/
def sOne : VectorStore :=
  ⟨true, some encConst, [⟨1, StoredText.jsonList [], StoredText.jsonList [], 0⟩]⟩

/-- A store holding two well-formed records with empty vectors. -/
def sTwo : VectorStore :=
  ⟨true, some encConst,
    [⟨1, StoredText.jsonList [], StoredText.jsonList [], 0⟩,
     ⟨2, StoredText.jsonList [], StoredText.jsonList [], 0⟩]⟩

/-- The score list `search` computes for `sTwo`. -/
noncomputable def resTwo : List (Int × PyFloat) :=
  [(1, PyFloat.val 0), (2, PyFloat.val 0)]

lemma sum_map_mul_self_nonneg (a : List ℝ) : 0 ≤ (a.map (fun x => x * x)).sum := by
  apply List.sum_nonneg
  intro x hx
  obtain ⟨y, _, rfl⟩ := List.mem_map.mp hx
  exact mul_self_nonneg y

lemma normR_nonneg (a : List ℝ) : 0 ≤ normR a := Real.sqrt_nonneg _

lemma normR_eq_zero_iff (a : List ℝ) : normR a = 0 ↔ ∀ x ∈ a, x = 0 := by
  unfold normR
  rw [Real.sqrt_eq_zero (sum_map_mul_self_nonneg a)]
  induction a with
  | nil => simp
  | cons y l ih =>
    have hy : 0 ≤ y * y := mul_self_nonneg y
    have hl : 0 ≤ (l.map (fun x => x * x)).sum := sum_map_mul_self_nonneg l
    simp only [List.map_cons, List.sum_cons, List.mem_cons]
    constructor
    · intro h
      have hyy : y * y = 0 := by nlinarith
      have hll : (l.map (fun x => x * x)).sum = 0 := by nlinarith
      refine fun x hx => hx.elim (fun hx => hx ▸ (mul_self_eq_zero.mp hyy)) (fun hx => ?_)
      exact ih.mp hll x hx
    · intro h
      have hyy : y = 0 := h y (Or.inl rfl)
      have hll : (l.map (fun x => x * x)).sum = 0 := ih.mpr fun x hx => h x (Or.inr hx)
      simp [hyy, hll]

lemma dotR_eq_zero_of_left_zero (a b : List ℝ) (ha : ∀ x ∈ a, x = 0) : dotR a b = 0 := by
  unfold dotR
  induction a generalizing b with
  | nil => simp
  | cons y l ih =>
    cases b with
    | nil => simp
    | cons z m =>
      have hy : y = 0 := ha y (List.mem_cons_self y l)
      simp [hy, ih m fun x hx => ha x (List.mem_cons_of_mem y hx)]

lemma dotR_eq_zero_of_right_zero (a b : List ℝ) (hb : ∀ x ∈ b, x = 0) : dotR a b = 0 := by
  unfold dotR
  induction a generalizing b with
  | nil => simp
  | cons y l ih =>
    cases b with
    | nil => simp
    | cons z m =>
      have hz : z = 0 := hb z (List.mem_cons_self z m)
      simp [hz, ih m fun x hx => hb x (List.mem_cons_of_mem z hx)]

/-- Faithfulness of the NaN branch of `cosineSimilarity`: whenever the
denominator `norm a * norm b` vanishes, so does the numerator `np.dot(a, b)`,
so the division is IEEE 0.0/0.0, i.e. NaN. -/
lemma dotR_eq_zero_of_norm_mul_eq_zero (a b : List ℝ) (h : normR a * normR b = 0) :
    dotR a b = 0 := by
  rcases mul_eq_zero.mp h with h0 | h0
  · exact dotR_eq_zero_of_left_zero a b ((normR_eq_zero_iff a).mp h0)
  · exact dotR_eq_zero_of_right_zero a b ((normR_eq_zero_iff b).mp h0)

lemma normR_singleton (x : ℝ) : normR [x] = Real.sqrt (x * x) := by
  simp [normR]

lemma pySlice_ofNat {α : Type} (l : List α) (a b : ℕ) (ha : a ≤ l.length)
    (hb : b ≤ l.length) : pySlice l (a : Int) (b : Int) = (l.drop a).take (b - a) := by
  unfold pySlice
  have hsa : ¬ ((a : Int) < 0) := by omega
  have hsb : ¬ ((b : Int) < 0) := by omega
  simp only [hsa, hsb, if_false]
  have h1 : (min (a : Int) (l.length : Int)).toNat = a := by omega
  have h2 : (min (b : Int) (l.length : Int)).toNat = b := by omega
  rw [h1, h2, List.drop_take]

lemma pySlice_neg_start {α : Type} (l : List α) (k : ℕ) (hk0 : 0 < k)
    (hk : k ≤ l.length) : pySlice l (-(k : Int)) (l.length : Int) = l.drop (l.length - k) := by
  unfold pySlice
  have hs : (-(k : Int)) < 0 := by omega
  have h2 : ¬ ((l.length : Int) < 0) := by omega
  simp only [hs, if_pos, h2, if_false]
  have h1 : (max ((l.length : Int) + -(k : Int)) 0).toNat = l.length - k := by omega
  have h3 : (min (l.length : Int) (l.length : Int)).toNat = l.length := by omega
  rw [h1, h3, List.take_length]

/-- C3: the content-sampling policy.  Over the 5000-character threshold, the
encoded text is exactly the first 1500 characters, a single space, the
1500-character window at indices `len/2 - 750` up to `len/2 + 750`, a single
space, and the last 1500 characters; at or below the threshold, the content
unchanged. -/
theorem c3_content_sampling (c : List Char) :
    (5000 < c.length →
      contentSample c =
        c.take 1500 ++ [' '] ++ (c.drop (c.length / 2 - 750)).take 1500 ++ [' '] ++
          c.drop (c.length - 1500)) ∧
    (c.length ≤ 5000 → contentSample c = c) := by
  constructor
  · intro h
    unfold contentSample
    rw [if_pos h]
    have e1 : pySlice c 0 1500 = c.take 1500 := by
      have := pySlice_ofNat c 0 1500 (by omega) (by omega)
      simpa using this
    have ha2 : ((c.length : Int) / 2 - 750) = ((c.length / 2 - 750 : ℕ) : Int) := by omega
    have hb2 : ((c.length : Int) / 2 + 750) = ((c.length / 2 + 750 : ℕ) : Int) := by omega
    have e2 : pySlice c ((c.length : Int) / 2 - 750) ((c.length : Int) / 2 + 750) =
        (c.drop (c.length / 2 - 750)).take 1500 := by
      rw [ha2, hb2, pySlice_ofNat c _ _ (by omega) (by omega)]
      have h1500 : (c.length / 2 + 750) - (c.length / 2 - 750) = 1500 := by omega
      rw [h1500]
    have e3 : pySlice c (-1500) (c.length : Int) = c.drop (c.length - 1500) := by
      have := pySlice_neg_start c 1500 (by omega) (by omega)
      simpa using this
    rw [e1, e2, e3]
  · intro h
    unfold contentSample
    rw [if_neg (by omega)]

/-- Witness for C3 at a concrete 5001-character content. -/
theorem c3_content_sampling_witness :
    5000 < (List.replicate 5001 'a').length ∧
      contentSample (List.replicate 5001 'a') =
        (List.replicate 5001 'a').take 1500 ++ [' '] ++
          ((List.replicate 5001 'a').drop ((List.replicate 5001 'a').length / 2 - 750)).take 1500 ++
          [' '] ++ (List.replicate 5001 'a').drop ((List.replicate 5001 'a').length - 1500) := by
  have h : 5000 < (List.replicate 5001 'a').length := by
    rw [List.length_replicate]
    norm_num
  exact ⟨h, (c3_content_sampling (List.replicate 5001 'a')).1 h⟩

/-- C4: `INSERT OR REPLACE` does NOT preserve `created_at`.  Indexing paper 7
at time 1 stores `created_at = 1`; re-indexing the same paper at time 2
deletes the old row and re-inserts it with `created_at` defaulted to the
current timestamp 2, contradicting the claim that `created_at` is never
updated on re-upsert. -/
theorem c4_created_at_reset_on_reupsert :
    ((addEmbedding s0 1 7 ['t'] ['c']).2.rows.map EmbRow.created_at = [1]) ∧
    ((addEmbedding (addEmbedding s0 1 7 ['t'] ['c']).2 2 7 ['t'] ['c']).2.rows.map
        EmbRow.created_at = [2]) := by
  constructor <;> rfl

/-- C6: with the provider unavailable (flag off or model failed to load),
`add_embedding` returns failure and leaves the store unchanged, and `search`
returns the empty list, for every input; the model is total, so neither
operation raises. -/
theorem c6_provider_unavailable (s : VectorStore) (now : Nat) (pid : Int)
    (title content query : List Char) (limit : Int)
    (h : s.vectorsEnabled = false ∨ s.model = none) :
    (addEmbedding s now pid title content).1 = false ∧
      (addEmbedding s now pid title content).2 = s ∧
      search s query limit = [] := by
  rcases s with ⟨en, mo, rows⟩
  cases en <;> cases mo <;> simp_all [addEmbedding, search]

/-- Witness for C6 at a store whose model is absent. -/
theorem c6_provider_unavailable_witness :
    (sOff.vectorsEnabled = false ∨ sOff.model = none) ∧
      ((addEmbedding sOff 0 1 [] []).1 = false ∧
        (addEmbedding sOff 0 1 [] []).2 = sOff ∧
        search sOff [] 10 = []) := by
  have h : sOff.vectorsEnabled = false ∨ sOff.model = none := Or.inr rfl
  exact ⟨h, c6_provider_unavailable sOff 0 1 [] [] [] 10 h⟩

lemma upsertRow_nodup (rows : List EmbRow) (pid : Int) (tv cv : StoredText) (now : Nat)
    (h : (rows.map EmbRow.paper_id).Nodup) :
    ((upsertRow rows pid tv cv now).map EmbRow.paper_id).Nodup := by
  unfold upsertRow
  rw [List.map_append, List.nodup_append]
  refine ⟨?_, List.nodup_singleton _, ?_⟩
  · exact ((List.filter_sublist rows).map EmbRow.paper_id).nodup h
  · intro a ha hb
    simp only [List.map_cons, List.map_nil, List.mem_singleton] at hb
    obtain ⟨r, hr, hra⟩ := List.mem_map.mp ha
    have := (List.mem_filter.mp hr).2
    simp only [decide_eq_true_eq] at this
    exact this (hra.trans hb)

lemma upsertRow_filter_self (rows : List EmbRow) (pid : Int) (tv cv : StoredText)
    (now : Nat) :
    (upsertRow rows pid tv cv now).filter (fun r => decide (r.paper_id = pid)) =
      [⟨pid, tv, cv, now⟩] := by
  unfold upsertRow
  rw [List.filter_append]
  have h1 : (rows.filter (fun r => decide (r.paper_id ≠ pid))).filter
      (fun r => decide (r.paper_id = pid)) = [] := by
    rw [List.filter_eq_nil_iff]
    intro r hr
    have := (List.mem_filter.mp hr).2
    simp only [decide_eq_true_eq] at this ⊢
    exact this
  rw [h1]
  simp

/-- C9: the table keeps at most one row per `paper_id` — each `add_embedding`
preserves distinctness of the stored ids — and re-indexing the same
`paper_id` replaces its row entirely: after indexing `pid` twice, exactly one
row for `pid` remains and it holds only the vectors encoded from the latest
title and content. -/
theorem c9_upsert_unique_and_replaces (s : VectorStore) (enc : List Char → List ℝ)
    (now1 now2 : Nat) (pid : Int) (t1 c1 t2 c2 : List Char)
    (hen : s.vectorsEnabled = true) (hm : s.model = some enc)
    (hnd : (s.rows.map EmbRow.paper_id).Nodup) :
    (((addEmbedding s now1 pid t1 c1).2.rows.map EmbRow.paper_id).Nodup) ∧
    ((((addEmbedding (addEmbedding s now1 pid t1 c1).2 now2 pid t2 c2).2.rows.map
        EmbRow.paper_id).Nodup)) ∧
    ((addEmbedding (addEmbedding s now1 pid t1 c1).2 now2 pid t2 c2).2.rows.filter
        (fun r => decide (r.paper_id = pid)) =
      [⟨pid, StoredText.jsonList (if t2 ≠ [] then enc t2 else []),
        StoredText.jsonList (if contentSample c2 ≠ [] then enc (contentSample c2) else []),
        now2⟩]) := by
  rcases s with ⟨en, mo, rows⟩
  simp only at hen hm
  subst hen
  subst hm
  simp only [addEmbedding]
  exact ⟨upsertRow_nodup _ _ _ _ _ hnd,
    upsertRow_nodup _ _ _ _ _ (upsertRow_nodup _ _ _ _ _ hnd),
    upsertRow_filter_self _ _ _ _ _⟩

/-- Witness for C9: index paper 3 twice into the empty available store. -/
theorem c9_upsert_unique_and_replaces_witness :
    (s0.vectorsEnabled = true ∧ s0.model = some encConst ∧
      (s0.rows.map EmbRow.paper_id).Nodup) ∧
    (((addEmbedding s0 1 3 ['a'] ['b']).2.rows.map EmbRow.paper_id).Nodup ∧
      (((addEmbedding (addEmbedding s0 1 3 ['a'] ['b']).2 2 3 ['x'] ['y']).2.rows.map
        EmbRow.paper_id).Nodup) ∧
      ((addEmbedding (addEmbedding s0 1 3 ['a'] ['b']).2 2 3 ['x'] ['y']).2.rows.filter
          (fun r => decide (r.paper_id = 3)) =
        [⟨3, StoredText.jsonList (if ['x'] ≠ [] then encConst ['x'] else []),
          StoredText.jsonList (if contentSample ['y'] ≠ [] then encConst (contentSample ['y'])
            else []), 2⟩])) := by
  refine ⟨⟨rfl, rfl, List.nodup_nil⟩, ?_⟩
  exact c9_upsert_unique_and_replaces s0 encConst 1 2 3 ['a'] ['b'] ['x'] ['y'] rfl rfl
    List.nodup_nil

/-- C1: the cosine computation is NOT guarded against zero-norm vectors.  For
the all-zero, non-empty content vector `[0]`, `_cosine_similarity` evaluates
0.0/0.0 and returns NaN — an invalid numeric value, which the claim says is
never produced.  Moreover, with a non-empty title vector of negative
similarity, the record's score is the negative title term (-1.5), not 0 as
the claim requires for a zero-contribution content vector (Python
`max(-1.5, nan) = -1.5`). -/
theorem c1_zero_norm_cosine_unguarded :
    cosineSimilarity [(1 : ℝ)] [0] = PyFloat.nan ∧
    rowScore [(1 : ℝ)] [-1] [0] = PyFloat.val (-1.5) := by
  have h1 : normR [(1 : ℝ)] = 1 := by
    rw [normR_singleton]; simp
  have h0 : normR [(0 : ℝ)] = 0 := by
    rw [normR_singleton]; simp
  have hm1 : normR [(-1 : ℝ)] = 1 := by
    rw [normR_singleton]; simp
  have hcos0 : cosineSimilarity [(1 : ℝ)] [0] = PyFloat.nan := by
    unfold cosineSimilarity
    rw [h1, h0]
    simp
  refine ⟨hcos0, ?_⟩
  have hcosm1 : cosineSimilarity [(1 : ℝ)] [-1] = PyFloat.val (-1) := by
    unfold cosineSimilarity
    rw [h1, hm1]
    norm_num [dotR]
  unfold rowScore
  simp only [List.length_cons, List.length_nil, Nat.lt_irrefl, if_pos, if_neg,
    Nat.zero_lt_succ, hcosm1, hcos0]
  norm_num [pyMul, pyMax, pyGt]

lemma pyMax_val_val (x y : ℝ) : pyMax (PyFloat.val x) (PyFloat.val y) = PyFloat.val (max x y) := by
  unfold pyMax
  by_cases h : pyGt (PyFloat.val y) (PyFloat.val x)
  · rw [if_pos h]
    have hxy : x < y := h
    rw [max_eq_right (le_of_lt hxy)]
  · rw [if_neg h]
    have hxy : ¬ x < y := h
    rw [max_eq_left (not_lt.mp hxy)]

lemma pyGt_irrefl (a : PyFloat) : ¬ pyGt a a := by
  cases a with
  | val x => simp [pyGt]
  | nan => simp [pyGt]

lemma pyGt_asymm {a b : PyFloat} (h : pyGt a b) : ¬ pyGt b a := by
  cases a with
  | nan => cases b <;> simp [pyGt] at h
  | val x =>
    cases b with
    | nan => simp [pyGt] at h
    | val y =>
      simp only [pyGt] at h ⊢
      intro h2
      exact lt_asymm h h2

lemma pyGe_trans (x y z : PyFloat) (hy : y ≠ PyFloat.nan) (h1 : ¬ pyGt y x)
    (h2 : ¬ pyGt z y) : ¬ pyGt z x := by
  cases z with
  | nan => cases x <;> simp [pyGt]
  | val c =>
    cases x with
    | nan => simp [pyGt]
    | val a =>
      cases y with
      | nan => exact absurd rfl hy
      | val b =>
        simp only [pyGt] at h1 h2 ⊢
        intro hlt
        exact h2 (lt_of_le_of_lt (not_lt.mp h1) hlt)

lemma orderedInsert_pairwise (p : Int × PyFloat) (m : List (Int × PyFloat))
    (hm : ∀ q ∈ m, q.2 ≠ PyFloat.nan) (hs : m.Pairwise descRel) :
    (List.orderedInsert descRel p m).Pairwise descRel := by
  induction m with
  | nil => simp [List.orderedInsert]
  | cons q qs ih =>
    simp only [List.orderedInsert]
    rcases List.pairwise_cons.mp hs with ⟨hq, hqs⟩
    by_cases h : descRel p q
    · rw [if_pos h]
      refine List.pairwise_cons.mpr ⟨?_, hs⟩
      intro b hb
      rcases List.mem_cons.mp hb with rfl | hb2
      · exact h
      · exact pyGe_trans p.2 q.2 b.2 (hm q (List.mem_cons_self q qs)) h (hq b hb2)
    · rw [if_neg h]
      refine List.pairwise_cons.mpr
        ⟨?_, ih (fun r hr => hm r (List.mem_cons_of_mem q hr)) hqs⟩
      intro b hb
      rcases (List.mem_orderedInsert descRel).mp hb with rfl | hb2
      · exact pyGt_asymm (not_not.mp h)
      · exact hq b hb2

lemma sortDesc_pairwise (l : List (Int × PyFloat)) (h : ∀ p ∈ l, p.2 ≠ PyFloat.nan) :
    (sortDesc l).Pairwise descRel := by
  unfold sortDesc
  induction l with
  | nil => simp
  | cons p ps ih =>
    simp only [List.insertionSort]
    apply orderedInsert_pairwise
    · intro q hq
      exact h q (List.mem_cons_of_mem p ((List.mem_insertionSort descRel).mp hq))
    · exact ih (fun q hq => h q (List.mem_cons_of_mem p hq))

lemma orderedInsert_filter (p : Int × PyFloat) (m : List (Int × PyFloat)) (k : PyFloat) :
    (List.orderedInsert descRel p m).filter (fun q => decide (q.2 = k)) =
      if p.2 = k then p :: m.filter (fun q => decide (q.2 = k))
      else m.filter (fun q => decide (q.2 = k)) := by
  induction m with
  | nil =>
    simp only [List.orderedInsert]
    by_cases hp : p.2 = k
    · simp [hp]
    · simp [hp]
  | cons q qs ih =>
    simp only [List.orderedInsert]
    by_cases h : descRel p q
    · rw [if_pos h]
      by_cases hp : p.2 = k <;> by_cases hq : q.2 = k <;>
        simp [List.filter_cons, hp, hq]
    · rw [if_neg h]
      by_cases hp : p.2 = k <;> by_cases hq : q.2 = k
      · exfalso
        have hgt := not_not.mp h
        rw [hq, hp] at hgt
        exact pyGt_irrefl k hgt
      · simp [List.filter_cons, hp, hq, ih]
      · simp [List.filter_cons, hp, hq, ih]
      · simp [List.filter_cons, hp, hq, ih]

lemma sortDesc_filter (l : List (Int × PyFloat)) (k : PyFloat) :
    (sortDesc l).filter (fun q => decide (q.2 = k)) =
      l.filter (fun q => decide (q.2 = k)) := by
  unfold sortDesc
  induction l with
  | nil => rfl
  | cons p ps ih =>
    simp only [List.insertionSort]
    rw [orderedInsert_filter]
    by_cases hp : p.2 = k
    · rw [if_pos hp, ih, List.filter_cons]
      simp [hp]
    · rw [if_neg hp, ih, List.filter_cons]
      simp [hp]

lemma sortDesc_length (l : List (Int × PyFloat)) : (sortDesc l).length = l.length := by
  unfold sortDesc
  exact List.length_insertionSort descRel l

lemma scoreRows_length (qv : List ℝ) (rows : List EmbRow) (res : List (Int × PyFloat))
    (h : scoreRows qv rows = Except.ok res) : res.length = rows.length := by
  induction rows generalizing res with
  | nil =>
    simp only [scoreRows, Except.ok.injEq] at h
    subst h
    rfl
  | cons r rs ih =>
    simp only [scoreRows] at h
    cases hr : scoreRow qv r with
    | error e => simp only [hr] at h; exact absurd h (by simp)
    | ok p =>
      simp only [hr] at h
      cases hrs : scoreRows qv rs with
      | error e => simp only [hrs] at h; exact absurd h (by simp)
      | ok ps =>
        simp only [hrs, Except.ok.injEq] at h
        subst h
        simp [ih ps hrs]

/-- C7 counterexample: the claim quantifies over every store state, but on
the store `sMal` — two stored records, one malformed — and limit 10,
`search` returns 0 ids, not the claimed `min(limit, number of records) = 2`,
because the deserialization error aborts the whole scan. -/
theorem c7_counterexample :
    (search sMal ['c'] 10).length = 0 ∧ min (10 : Int).toNat sMal.rows.length = 2 := by
  have h : search sMal ['c'] 10 = [] := by
    simp [search, sMal, scoreRows, scoreRow, loadVecE]
  rw [h]
  exact ⟨rfl, rfl⟩

/-- C7 (amended): restricted to store states whose records all deserialize
and score a real (non-NaN) value.  With the provider available, `search`
returns the ids of the score-sorted list truncated to `limit ≥ 0` entries:
the result has length `min limit n` for `n` stored records, the sorted list
is descending (`descRel` holds pairwise, i.e. no later element has a
strictly greater score), ties keep original scan order (filtering any fixed
score value commutes with the sort), an empty store yields `[]`, and
`limit = 0` yields `[]`. -/
theorem c7_search_ranking (s : VectorStore) (enc : List Char → List ℝ) (q : List Char)
    (limit : Int) (res : List (Int × PyFloat))
    (hen : s.vectorsEnabled = true) (hm : s.model = some enc)
    (hres : scoreRows (enc q) s.rows = Except.ok res)
    (hval : ∀ p ∈ res, p.2 ≠ PyFloat.nan)
    (hlim : 0 ≤ limit) :
    search s q limit = (pyTake (sortDesc res) limit).map Prod.fst ∧
    (search s q limit).length = min limit.toNat s.rows.length ∧
    (sortDesc res).Pairwise descRel ∧
    (∀ k : PyFloat, (sortDesc res).filter (fun p => decide (p.2 = k)) =
      res.filter (fun p => decide (p.2 = k))) ∧
    (s.rows = [] → search s q limit = []) ∧
    (limit = 0 → search s q limit = []) := by
  rcases s with ⟨en, mo, rows⟩
  simp only at hen hm hres ⊢
  subst hen
  subst hm
  have hlen : res.length = rows.length := scoreRows_length (enc q) rows res hres
  have hA : search ⟨true, some enc, rows⟩ q limit =
      (pyTake (sortDesc res) limit).map Prod.fst := by
    cases rows with
    | nil =>
      have hres0 : res = [] := by
        simp only [scoreRows, Except.ok.injEq] at hres
        exact hres.symm
      subst hres0
      simp [search, sortDesc, pyTake, List.insertionSort]
    | cons r rs =>
      simp [search, hres]
  refine ⟨hA, ?_, sortDesc_pairwise res hval, fun k => sortDesc_filter res k, ?_, ?_⟩
  · rw [hA, List.length_map]
    unfold pyTake
    rw [if_pos hlim, List.length_take, sortDesc_length, hlen]
  · intro hr
    subst hr
    simp [search]
  · intro hl
    subst hl
    rw [hA]
    simp [pyTake]

/-- Witness for C7 on a two-record store whose vectors are empty. -/
theorem c7_search_ranking_witness :
    (sTwo.vectorsEnabled = true ∧ sTwo.model = some encConst ∧
      scoreRows (encConst ['q']) sTwo.rows = Except.ok resTwo ∧
      (∀ p ∈ resTwo, p.2 ≠ PyFloat.nan) ∧ (0 : Int) ≤ 10) ∧
    (search sTwo ['q'] 10).length = min (10 : Int).toNat sTwo.rows.length := by
  have hres : scoreRows (encConst ['q']) sTwo.rows = Except.ok resTwo := by
    simp [sTwo, resTwo, scoreRows, scoreRow, loadVecE, rowScore, encConst, pyMax, pyGt]
  have hval : ∀ p ∈ resTwo, p.2 ≠ PyFloat.nan := by
    intro p hp
    simp only [resTwo, List.mem_cons, List.not_mem_nil, or_false] at hp
    rcases hp with rfl | rfl <;> simp
  exact ⟨⟨rfl, rfl, hres, hval, by norm_num⟩,
    (c7_search_ranking sTwo encConst ['q'] 10 resTwo rfl rfl hres hval (by norm_num)).2.1⟩

lemma scoreRow_error_of_malformed (qv : List ℝ) (r : EmbRow)
    (h : r.title_vector = StoredText.malformed ∨ r.content_vector = StoredText.malformed) :
    scoreRow qv r = Except.error () := by
  rcases h with h | h
  · simp [scoreRow, loadVecE, h]
  · cases ht : r.title_vector <;> simp [scoreRow, loadVecE, ht, h]

lemma scoreRows_error_of_malformed (qv : List ℝ) (rows : List EmbRow)
    (h : ∃ r ∈ rows, r.title_vector = StoredText.malformed ∨
        r.content_vector = StoredText.malformed) :
    ∃ e, scoreRows qv rows = Except.error e := by
  induction rows with
  | nil => simp at h
  | cons r rs ih =>
    obtain ⟨r0, hr0, hmal⟩ := h
    rcases List.mem_cons.mp hr0 with rfl | hr0
    · exact ⟨(), by simp only [scoreRows, scoreRow_error_of_malformed qv r0 hmal]⟩
    · cases hsr : scoreRow qv r with
      | error e => exact ⟨e, by simp only [scoreRows, hsr]⟩
      | ok p =>
        obtain ⟨e, he⟩ := ih ⟨r0, hr0, hmal⟩
        exact ⟨e, by simp only [scoreRows, hsr, he]⟩

/-- C5 (amended): a record whose stored title or content vector fails to
deserialize raises inside the scoring loop; the exception is caught by the
outer handler of `search`, which returns the empty list for the WHOLE search
— the malformed record is not skipped and the well-formed records are not
returned. -/
theorem c5_malformed_record_aborts (s : VectorStore) (enc : List Char → List ℝ)
    (q : List Char) (limit : Int)
    (hen : s.vectorsEnabled = true) (hm : s.model = some enc)
    (h : ∃ r ∈ s.rows, r.title_vector = StoredText.malformed ∨
        r.content_vector = StoredText.malformed) :
    search s q limit = [] := by
  rcases s with ⟨en, mo, rows⟩
  simp only at hen hm h ⊢
  subst hen
  subst hm
  obtain ⟨e, he⟩ := scoreRows_error_of_malformed (enc q) rows h
  cases rows with
  | nil => simp at h
  | cons r rs => simp [search, he]

/-- C5 counterexample: in the store `sMal` the malformed record 1 sits next
to the well-formed record 2; the claim says record 1 is skipped and the
ranked ids `[2]` of the remaining records are returned, but `search` returns
the empty list. -/
theorem c5_counterexample :
    search sMal ['q'] 10 = [] ∧ search sMal ['q'] 10 ≠ [2] := by
  have h : search sMal ['q'] 10 = [] := by
    simp [search, sMal, scoreRows, scoreRow, loadVecE]
  refine ⟨h, ?_⟩
  rw [h]
  simp

/-- Witness for C5 (amended) on the store `sMal`. -/
theorem c5_malformed_record_aborts_witness :
    (sMal.vectorsEnabled = true ∧ sMal.model = some encConst ∧
      (∃ r ∈ sMal.rows, r.title_vector = StoredText.malformed ∨
        r.content_vector = StoredText.malformed)) ∧
    search sMal ['w'] 5 = [] := by
  have h : ∃ r ∈ sMal.rows, r.title_vector = StoredText.malformed ∨
      r.content_vector = StoredText.malformed := by
    refine ⟨⟨1, StoredText.malformed, StoredText.malformed, 0⟩, ?_, Or.inl rfl⟩
    simp [sMal]
  exact ⟨⟨rfl, rfl, h⟩, c5_malformed_record_aborts sMal encConst ['w'] 5 rfl rfl h⟩

/-- C10 (amended): for a store with `n ≥ 1` scored records and a negative
limit `-k` with `0 < k ≤ n`, `search` does not raise (the model is total)
and returns the first `n - k` ids of the descending ranking — which is the
EMPTY list when `k = n`, and a non-empty list exactly when `k < n`. -/
theorem c10_negative_limit (s : VectorStore) (enc : List Char → List ℝ) (q : List Char)
    (k : ℕ) (res : List (Int × PyFloat))
    (hen : s.vectorsEnabled = true) (hm : s.model = some enc)
    (hres : scoreRows (enc q) s.rows = Except.ok res)
    (hk : 0 < k) (hkn : k ≤ s.rows.length) :
    search s q (-(k : Int)) = ((sortDesc res).map Prod.fst).take (s.rows.length - k) ∧
    (search s q (-(k : Int))).length = s.rows.length - k ∧
    (k < s.rows.length → search s q (-(k : Int)) ≠ []) := by
  rcases s with ⟨en, mo, rows⟩
  simp only at hen hm hres hkn ⊢
  subst hen
  subst hm
  have hlen : res.length = rows.length := scoreRows_length (enc q) rows res hres
  have hA : search ⟨true, some enc, rows⟩ q (-(k : Int)) =
      (pyTake (sortDesc res) (-(k : Int))).map Prod.fst := by
    cases rows with
    | nil =>
      exfalso
      simp at hkn
      omega
    | cons r rs => simp [search, hres]
  have hpt : pyTake (sortDesc res) (-(k : Int)) = (sortDesc res).take (rows.length - k) := by
    unfold pyTake
    have hneg : ¬ ((0 : Int) ≤ -(k : Int)) := by omega
    rw [if_neg hneg]
    have h2 : (-(-(k : Int))).toNat = k := by omega
    rw [h2, sortDesc_length, hlen]
  refine ⟨?_, ?_, ?_⟩
  · rw [hA, hpt, List.map_take]
  · rw [hA, hpt, List.length_map, List.length_take, sortDesc_length, hlen]
    omega
  · intro hlt
    rw [hA, hpt]
    intro hnil
    have hlen2 := congrArg List.length hnil
    rw [List.length_map, List.length_take, sortDesc_length, hlen] at hlen2
    simp at hlen2
    omega

/-- C10 counterexample: a store with one rankable record and limit `-1`
(`k = n = 1`): the slice `results[:-1]` drops the only element, so `search`
returns the empty list although the claim says it never does for
`0 < k ≤ n`. -/
theorem c10_counterexample : search sOne ['q'] (-1) = [] := by
  simp [search, sOne, scoreRows, scoreRow, loadVecE, sortDesc, List.insertionSort,
    List.orderedInsert, pyTake, rowScore, pyMax, pyGt, encConst]

/-- Witness for C10 (amended) on the two-record store with `k = 1`. -/
theorem c10_negative_limit_witness :
    (sTwo.vectorsEnabled = true ∧ sTwo.model = some encConst ∧
      scoreRows (encConst ['z']) sTwo.rows = Except.ok resTwo ∧
      0 < 1 ∧ 1 ≤ sTwo.rows.length) ∧
    (search sTwo ['z'] (-((1 : ℕ) : Int))).length = sTwo.rows.length - 1 := by
  have hres : scoreRows (encConst ['z']) sTwo.rows = Except.ok resTwo := by
    simp [sTwo, resTwo, scoreRows, scoreRow, loadVecE, rowScore, encConst, pyMax, pyGt]
  have hkn : 1 ≤ sTwo.rows.length := by
    simp [sTwo]
  exact ⟨⟨rfl, rfl, hres, by norm_num, hkn⟩,
    (c10_negative_limit sTwo encConst ['z'] 1 resTwo rfl rfl hres (by norm_num) hkn).2.1⟩

/-- C2: the score a record receives in `search` is exactly the spec's
`max(1.5 * cos(q, title), cos(q, content))` with an empty vector contributing
0 instead of its cosine term, whenever the occurring cosines are defined
(nonzero norm products).  In particular a record with both vectors empty
scores `max 0 0 = 0`, and a record missing one vector scores only on the
vector it has; the combination is a maximum, not a sum or average. -/
theorem c2_score_is_weighted_max (q t c : List ℝ)
    (ht : t ≠ [] → normR q * normR t ≠ 0)
    (hc : c ≠ [] → normR q * normR c ≠ 0) :
    rowScore q t c = PyFloat.val (specRecordScore q t c) := by
  have title_eq : (if 0 < t.length then pyMul (cosineSimilarity q t) (PyFloat.val 1.5)
      else PyFloat.val 0) = PyFloat.val (if t ≠ [] then 1.5 * specCosine q t else 0) := by
    by_cases h1 : t = []
    · subst h1
      simp
    · have hl : 0 < t.length := List.length_pos.mpr h1
      rw [if_pos hl, if_pos h1]
      unfold cosineSimilarity
      rw [if_neg (ht h1)]
      simp [pyMul, specCosine, mul_comm]
  have content_eq : (if 0 < c.length then cosineSimilarity q c else PyFloat.val 0) =
      PyFloat.val (if c ≠ [] then specCosine q c else 0) := by
    by_cases h2 : c = []
    · subst h2
      simp
    · have hl : 0 < c.length := List.length_pos.mpr h2
      rw [if_pos hl, if_pos h2]
      unfold cosineSimilarity
      rw [if_neg (hc h2)]
      simp [specCosine]
  show pyMax _ _ = _
  rw [title_eq, content_eq, pyMax_val_val]
  rfl

/-- Witness for C2 at the concrete query and title vector `[1]` and an empty
content vector. -/
theorem c2_score_is_weighted_max_witness :
    (([(1 : ℝ)] ≠ ([] : List ℝ) → normR [(1 : ℝ)] * normR [(1 : ℝ)] ≠ 0) ∧
      (([] : List ℝ) ≠ ([] : List ℝ) → normR [(1 : ℝ)] * normR ([] : List ℝ) ≠ 0)) ∧
    rowScore [(1 : ℝ)] [(1 : ℝ)] [] = PyFloat.val (specRecordScore [(1 : ℝ)] [(1 : ℝ)] []) := by
  have h1 : normR [(1 : ℝ)] = 1 := by
    rw [normR_singleton]; simp
  have ht : [(1 : ℝ)] ≠ ([] : List ℝ) → normR [(1 : ℝ)] * normR [(1 : ℝ)] ≠ 0 := by
    intro _
    rw [h1]
    norm_num
  have hc : ([] : List ℝ) ≠ ([] : List ℝ) → normR [(1 : ℝ)] * normR ([] : List ℝ) ≠ 0 :=
    fun h => absurd rfl h
  exact ⟨⟨ht, hc⟩, c2_score_is_weighted_max [(1 : ℝ)] [(1 : ℝ)] [] ht hc⟩
